import Mathlib

/-!
Verification of the aobot gateway core against its design specification.

The definitions below are a shallow embedding of the Rust sources:
* `aobot-channel-telegram/src/lib.rs` and `aobot-channel-discord/src/lib.rs`
  (`split_message`, `find_split_point` — the two files contain the identical
  functions), modelled over `List Char` with explicit UTF-8 byte lengths so
  that byte slicing at non-character boundaries (which panics in Rust) is
  observable;
* `aobot-gateway/src/channel.rs` (`ChannelManager::register`/`unregister`
  and the routing loop of `run_message_loop`);
* `aobot-gateway/src/session_manager.rs`
  (`send_message_with_attachments`, with the agent session abstracted as an
  oracle giving each prompt attempt's streamed deltas and result) together
  with the storage effects of `aobot-storage/src/lib.rs`;
* `aobot-gateway/src/external_channel.rs` (`start`, the stdout reader's
  notification dispatch, and the synchronous `status` accessor);
* the command normalisation of `aobot-channel-telegram/src/polling.rs` and
  `aobot-channel-discord/src/handler.rs`.
-/

namespace Aobot

/-! ### UTF-8 byte arithmetic

Rust `str` values are UTF-8 byte strings indexed by byte position.  We model
a string as its list of `char`s (`Char` in Lean is the same set of unicode
scalar values) and compute byte positions through the UTF-8 encoded length
of each scalar. -/

/-- Number of bytes of the UTF-8 encoding of a scalar value. -/
def utf8Len (c : Char) : Nat :=
  if c.toNat < 0x80 then 1
  else if c.toNat < 0x800 then 2
  else if c.toNat < 0x10000 then 3
  else 4

/-- Byte length of a string, `str::len` in Rust. -/
def byteLen : List Char → Nat
  | [] => 0
  | c :: rest => utf8Len c + byteLen rest

/-- Take the prefix of exactly `n` bytes.  Returns `none` when `n` overruns
the string or falls strictly inside a multi-byte character — exactly the
situations in which Rust's `&s[..n]` panics. -/
def takeBytes : List Char → Nat → Option (List Char)
  | _, 0 => some []
  | [], _ + 1 => none
  | c :: rest, n + 1 =>
    if utf8Len c ≤ n + 1 then (takeBytes rest (n + 1 - utf8Len c)).map (c :: ·)
    else none

/-- Drop the first `n` bytes, the complement of `takeBytes` (Rust `&s[n..]`). -/
def dropBytes : List Char → Nat → Option (List Char)
  | s, 0 => some s
  | [], _ + 1 => none
  | c :: rest, n + 1 =>
    if utf8Len c ≤ n + 1 then dropBytes rest (n + 1 - utf8Len c)
    else none

/-! ### Rust string helpers used by the chunker -/

/-- Rust `char::is_whitespace`: the unicode `White_Space` property. -/
def isRustWs (c : Char) : Bool :=
  c.toNat = 0x09 ∨ c.toNat = 0x0A ∨ c.toNat = 0x0B ∨ c.toNat = 0x0C ∨
  c.toNat = 0x0D ∨ c.toNat = 0x20 ∨ c.toNat = 0x85 ∨ c.toNat = 0xA0 ∨
  c.toNat = 0x1680 ∨ (0x2000 ≤ c.toNat ∧ c.toNat ≤ 0x200A) ∨
  c.toNat = 0x2028 ∨ c.toNat = 0x2029 ∨ c.toNat = 0x202F ∨
  c.toNat = 0x205F ∨ c.toNat = 0x3000

/-- Rust `str::trim_start`. -/
def trimLeft (s : List Char) : List Char := s.dropWhile isRustWs

/-- Rust `str::trim_end`. -/
def trimRight (s : List Char) : List Char := (s.reverse.dropWhile isRustWs).reverse

/-- Rust `str::trim`. -/
def rustTrim (s : List Char) : List Char := trimRight (trimLeft s)

/-- Split at every newline, keeping all (possibly empty) fields.
`splitAll` of any string is nonempty. -/
def splitAll : List Char → List (List Char)
  | [] => [[]]
  | c :: rest =>
    if c = '\n' then [] :: splitAll rest
    else
      match splitAll rest with
      | [] => [[c]]
      | l :: ls => (c :: l) :: ls

/-- Rust `str::lines` modulo `\r`-stripping: split on `'\n'`, omitting the
final empty field produced by a trailing newline.  (Rust's `lines` also
strips one trailing `'\r'` per line; every use below passes the line through
`rustTrim` — which removes `'\r'` anyway — before inspecting it, so the
`\r`-stripping is absorbed and not modelled separately.) -/
def splitTerm : List Char → List (List Char)
  | [] => []
  | c :: rest =>
    if c = '\n' then [] :: splitTerm rest
    else
      match splitTerm rest with
      | [] => [[c]]
      | l :: ls => (c :: l) :: ls

/-- The three-backtick fence token. -/
def fence3 : List Char := "```".toList

/-- A line whose trimmed form starts with ``` — the condition
`line.trim().starts_with("```")` used by pass 2 of the chunker. -/
def isFence (line : List Char) : Bool := fence3.isPrefixOf (rustTrim line)

/-- Helper for Rust `str::rfind`: byte position of the last occurrence of
`pat` in the suffix starting at byte position `pos`, with `best` the best
position found so far. -/
def rfindGo (pat : List Char) (pos : Nat) (s : List Char) (best : Option Nat) :
    Option Nat :=
  let best' := if pat.isPrefixOf s then some pos else best
  match s with
  | [] => best'
  | c :: rest => rfindGo pat (pos + utf8Len c) rest best'

/-- Rust `str::rfind` for a literal pattern: byte index of the start of the
last occurrence.  (For the ASCII patterns used here, occurrences always lie
on character boundaries, so searching at character positions is exact.) -/
def rfindSub (pat s : List Char) : Option Nat := rfindGo pat 0 s none

/-! ### The message chunker

`split_message` and `find_split_point` from
`crates/aobot-channel-telegram/src/lib.rs` lines 48–136 (the Discord crate
contains byte-identical copies). -/

/-- Errors of the embedded chunker: `panic` marks a byte slice taken at a
non-character boundary (a Rust panic); `fuelOut` marks exhaustion of the
structural fuel (the Rust loop fails to make progress only when
`max_len = 0`, where it loops forever). -/
inductive SplitErr where
  | panic
  | fuelOut
deriving DecidableEq

/-- Priorities 3–4 of `find_split_point` (space, hard cut). -/
def findSplitPointSp (text : List Char) : Nat :=
  match rfindSub [' '] text with
  | some pos =>
    if pos > 0 then pos + 1
    else byteLen text
  | none => byteLen text

/-- Priorities 2–4 of `find_split_point` (line break, space, hard cut). -/
def findSplitPointNl (text : List Char) : Nat :=
  match rfindSub ['\n'] text with
  | some pos =>
    if pos > 0 then pos + 1
    else findSplitPointSp text
  | none => findSplitPointSp text

/-- `find_split_point`: best split position in `text`, searching backwards —
paragraph break, then line break, then space, then a hard cut at the end.
A position of 0 is rejected at each level. -/
def findSplitPoint (text : List Char) : Nat :=
  match rfindSub ('\n' :: ['\n']) text with
  | some pos =>
    if pos > 0 then pos + 1
    else findSplitPointNl text
  | none => findSplitPointNl text

/-- Pass 1 of `split_message`: the naive `while !buf.is_empty()` loop.  While
the buffer exceeds `max_len` bytes, slice the first `max_len` bytes
(`&buf[..max_len]` — a panic when that is not a character boundary), find the
split point, emit the prefix, and continue with the remainder stripped of
leading newlines.  `fuel` bounds the number of iterations; each iteration
removes at least one byte whenever `max_len ≥ 1`, so `byteLen text` fuel
never runs out on the inputs of interest. -/
def pass1 : Nat → List Char → Nat → Except SplitErr (List (List Char))
  | _, [], _ => .ok []
  | 0, _ :: _, _ => .error .fuelOut
  | fuel + 1, buf, maxLen =>
    if byteLen buf ≤ maxLen then .ok [buf]
    else
      match takeBytes buf maxLen with
      | none => .error .panic
      | some searchArea =>
        let splitAt := findSplitPoint searchArea
        match takeBytes buf splitAt, dropBytes buf splitAt with
        | some chunk, some rest =>
          match pass1 fuel (rest.dropWhile (fun c => c = '\n')) maxLen with
          | .ok chunks => .ok (chunk :: chunks)
          | .error e => .error e
        | _, _ => .error .panic

/-- One step of the pass-2 fence scanner: toggling `in_code_block` on every
line whose trimmed form starts with ```, remembering the trimmed fence line
when opening and clearing it when closing. -/
def fenceStep (st : Bool × List Char) (line : List Char) : Bool × List Char :=
  if isFence line then
    if st.1 then (false, []) else (true, rustTrim line)
  else st

/-- The pass-2 fence scan over the lines of one raw chunk. -/
def fenceScan (b : Bool) (f : List Char) (lines : List (List Char)) :
    Bool × List Char :=
  lines.foldl fenceStep (b, f)

/-- Pass 2 of `split_message`: walk the raw chunks carrying
`(in_code_block, code_fence)`; prepend `code_fence ++ "\n"` when entering a
chunk inside a code block, and append `"\n```"` when still inside one at the
chunk's end. -/
def pass2Go (b : Bool) (f : List Char) : List (List Char) → List (List Char)
  | [] => []
  | raw :: rest =>
    let st := fenceScan b f (splitTerm raw)
    let chunk := (if b then f ++ ['\n'] else []) ++ raw ++
      (if st.1 then '\n' :: fence3 else [])
    chunk :: pass2Go st.1 st.2 rest

/-- `split_message(text, max_len)`: texts of at most `max_len` bytes are
returned verbatim as a single chunk (pass 2 is not applied); longer texts go
through pass 1 and then pass 2. -/
def splitMessage (text : List Char) (maxLen : Nat) :
    Except SplitErr (List (List Char)) :=
  if byteLen text ≤ maxLen then .ok [text]
  else (pass1 (byteLen text) text maxLen).map (pass2Go false [])

/-- Number of non-overlapping occurrences of `pat` in a string with `skip`
positions still to be skipped after a match — `str::matches(pat).count()`. -/
def countOccurGo (pat : List Char) : List Char → Nat → Nat
  | [], _ => 0
  | _ :: rest, skip + 1 => countOccurGo pat rest skip
  | c :: rest, 0 =>
    if pat.isPrefixOf (c :: rest) then 1 + countOccurGo pat rest (pat.length - 1)
    else countOccurGo pat rest 0

/-- Number of non-overlapping occurrences of `pat`
(Rust `s.matches(pat).count()`, the count used by the chunker's own test). -/
def countOccur (pat s : List Char) : Nat := countOccurGo pat s 0

/-- Largest byte length of a trimmed fence line of one raw chunk. -/
def rawFenceMax (raw : List Char) : Nat :=
  (splitTerm raw).foldr
    (fun l acc => if isFence l then max (byteLen (rustTrim l)) acc else acc) 0

/-- Largest byte length of a trimmed fence line over a list of raw chunks. -/
def maxFenceLen (raws : List (List Char)) : Nat :=
  raws.foldr (fun r acc => max (rawFenceMax r) acc) 0

/-- Fence-repair overhead available to the chunks of `split_message`: zero on
the verbatim path, and otherwise the longest trimmed fence line of the pass-1
chunks plus one newline, plus the four bytes of a synthesized closing fence
(`"\n```"`). -/
def overheadBound (text : List Char) (maxLen : Nat) : Nat :=
  if byteLen text ≤ maxLen then 0
  else
    match pass1 (byteLen text) text maxLen with
    | .ok raws => maxFenceLen raws + 5
    | .error _ => 0

/-! ### Routing loop of `ChannelManager::run_message_loop`
(`crates/aobot-gateway/src/channel.rs` lines 239–394). -/

/-- JSON values as far as the routing loop inspects them
(`metadata.get("command").and_then(|v| v.as_str())`). -/
inductive JsonVal where
  | str (s : String)
  | num (n : Int)
  | other
deriving DecidableEq

/-- Rust `serde_json::Value::as_str`. -/
def JsonVal.asStr : JsonVal → Option String
  | .str s => some s
  | _ => none

/-- Inbound attachments (`aobot_types::Attachment`). -/
inductive Attachment where
  | image (base64 mime : String)
  | document (base64 mime : String) (fileName : Option String)
  | audio (base64 mime : String)
deriving DecidableEq

/-- The fields of `aobot_types::InboundMessage` read by the routing loop. -/
structure InboundMsg where
  channelType : String
  channelId : String
  senderId : String
  text : String
  agent : Option String
  sessionKey : Option String
  metadata : List (String × JsonVal)
  attachments : List Attachment
deriving DecidableEq

/-- Session-key derivation: the message's explicit key if present, else
`{channel_type}:{channel_id}:{sender_id}`. -/
def deriveSessionKey (m : InboundMsg) : String :=
  m.sessionKey.getD (m.channelType ++ ":" ++ m.channelId ++ ":" ++ m.senderId)

/-- `inbound.metadata.get("command").and_then(|v| v.as_str())`. -/
def metaCommand (m : InboundMsg) : Option String :=
  (m.metadata.lookup "command").bind JsonVal.asStr

/-- The fixed reply of the `new` command.  (The source file stores the
original emoji as the four mojibake characters below.) -/
def newReplyText : String :=
  "ðŸ”„ New conversation started. How can I help you?"

/-- The fixed reply of the `help`/`start` commands (same mojibake encoding
of the original emoji and em-dashes as in the source file). -/
def helpReplyText : String :=
  "ðŸ¤– *aobot* â€” AI Assistant\n\n" ++
  "Commands:\n/new â€” Start a new conversation\n" ++
  "/help â€” Show this help message\n\n" ++
  "Send any message to chat with AI."

/-- `reply_text` computed by the command `match`: `new` gets the fixed
new-conversation string, `help`/`start` the fixed help string, anything else
the empty string (which falls through to agent dispatch). -/
def commandReply (cmd : String) : String :=
  if cmd = "new" then newReplyText
  else if cmd = "help" ∨ cmd = "start" then helpReplyText
  else ""

/-- Externally visible actions of the routing loop, in program order, up to
and including the downstream session prompt.  (What happens after the prompt
resolves — forwarding the response — depends on the prompt's result and is
not part of the routing decision modelled here.) -/
inductive RouteAction where
  | deleteSession (key : String)
  | sendReply (channelId recipientId text : String)
  | promptStreaming (key text : String)
  | promptBlocking (key text : String)
deriving DecidableEq

/-- Agent dispatch: `send_message_streaming_with_attachments` when the
originating plugin reports `supports_streaming()`, else the blocking
`send_message_with_attachments` (with a typing-indicator loop around it). -/
def routeDispatch (useStreaming : Bool) (key : String) (m : InboundMsg) :
    List RouteAction :=
  if useStreaming then [RouteAction.promptStreaming key m.text]
  else [RouteAction.promptBlocking key m.text]

/-- One iteration of `run_message_loop` for an inbound message `m`;
`chanStreaming` is `supports_streaming()` of the plugin found under
`m.channelId`, or `none` when no plugin is registered under that id
(`use_streaming` then defaults to `false`).  Mirrors: derive the session
key; if metadata holds a `command` string, `new` deletes the session and the
computed reply, when nonempty, is sent back and processing stops; otherwise
(no command, or a command whose reply is empty) the message is dispatched to
the session manager. -/
def routeMessage (chanStreaming : Option Bool) (m : InboundMsg) :
    List RouteAction :=
  let key := deriveSessionKey m
  let useStreaming := chanStreaming.getD false
  match metaCommand m with
  | some cmd =>
    let pre := if cmd = "new" then [RouteAction.deleteSession key] else []
    let reply := commandReply cmd
    if reply ≠ "" then pre ++ [RouteAction.sendReply m.channelId m.senderId reply]
    else pre ++ routeDispatch useStreaming key m
  | none => routeDispatch useStreaming key m

/-- Whether a route action is a downstream session prompt. -/
def RouteAction.isPrompt : RouteAction → Bool
  | .promptStreaming _ _ => true
  | .promptBlocking _ _ => true
  | _ => false

/-! ### Command normalisation in the channel adapters -/

/-- Telegram command extraction (`polling.rs` lines 136–150):
`text.split_whitespace().next().unwrap_or("").trim_start_matches('/')
.split('@').next().unwrap_or("")`. -/
def telegramCommandToken (text : List Char) : List Char :=
  let firstTok := (text.dropWhile isRustWs).takeWhile (fun c => !isRustWs c)
  let stripped := firstTok.dropWhile (fun c => c = '/')
  stripped.takeWhile (fun c => c ≠ '@')

/-- Discord `parse_command` (`handler.rs` lines 114–134): a leading `!` on
the trimmed text introduces a command; `new`/`reset` map to `new`,
`help`/`start` map to `help`, anything else is not a command.  The original
text is always returned as the remaining text. -/
def discordParseCommand (text : List Char) : Option String × List Char :=
  match rustTrim text with
  | [] => (none, text)
  | c :: rest =>
    if c ≠ '!' then (none, text)
    else
      let cmd := (rest.dropWhile isRustWs).takeWhile (fun ch => !isRustWs ch)
      if cmd = [] then (none, text)
      else if cmd = "new".toList ∨ cmd = "reset".toList then (some "new", text)
      else if cmd = "help".toList ∨ cmd = "start".toList then (some "help", text)
      else (none, text)

/-! ### The session manager's prompt path
(`GatewaySessionManager::send_message_with_attachments`,
`crates/aobot-gateway/src/session_manager.rs` lines 506–588, with the
underlying `AgentSession` abstracted as an oracle).

A `PromptAttempt` records what one `prompt_with_content` call does: the text
deltas it streams through the subscribed listener, and its result.  The
`SendOracle` fixes the behaviour of the first attempt, of the emergency
`compact(None)`, of the retry attempt, and the session id visible afterwards.
The auto-compaction step (`maybe_compact`) that precedes the first prompt is
independent of this path and not part of the trace. -/

instance {ε α : Type} [DecidableEq ε] [DecidableEq α] :
    DecidableEq (Except ε α) := fun a b =>
  match a, b with
  | .ok x, .ok y =>
    if h : x = y then .isTrue (by rw [h]) else .isFalse (by simp [h])
  | .ok _, .error _ => .isFalse (by simp)
  | .error _, .ok _ => .isFalse (by simp)
  | .error x, .error y =>
    if h : x = y then .isTrue (by rw [h]) else .isFalse (by simp [h])

structure PromptAttempt where
  deltas : List String
  result : Except String Unit
deriving DecidableEq

structure SendOracle where
  attempt1 : PromptAttempt
  compactRes : Except String Unit
  attempt2 : PromptAttempt
  sessionId : Option String
deriving DecidableEq

/-- Calls issued on the agent session, in order. -/
inductive SessEvent where
  | promptCall
  | compactCall
deriving DecidableEq

/-- The context-overflow test: `err.contains("too long") ||
err.contains("context") || err.contains("token")`. -/
def overflowMatch (e : String) : Bool :=
  (rfindSub "too long".toList e.toList).isSome ||
  (rfindSub "context".toList e.toList).isSome ||
  (rfindSub "token".toList e.toList).isSome

/-- The overflow-recovery branch of `send_message_with_attachments`, entered
when the first prompt returned the error `e`: on an overflow match, one
`compact(None)` and — when it succeeds — exactly one retry; a failed
compaction surfaces the original prompt error. -/
def sendCoreAfterError (o : SendOracle) (e : String) :
    List SessEvent × Except String String :=
  if overflowMatch e then
    match o.compactRes with
    | .ok _ =>
      match o.attempt2.result with
      | .ok _ =>
        ([.promptCall, .compactCall, .promptCall],
         .ok (String.join o.attempt1.deltas ++ String.join o.attempt2.deltas))
      | .error e2 =>
        ([.promptCall, .compactCall, .promptCall],
         .error ("Prompt error after compaction: " ++ e2))
    | .error _ =>
      ([.promptCall, .compactCall], .error ("Prompt error: " ++ e))
  else ([.promptCall], .error ("Prompt error: " ++ e))

/-- The prompt/compact/retry core of `send_message_with_attachments`.
The collected response text accumulates the deltas of every attempt made
during the call (the collector is subscribed once and never reset).  Returns
the agent-session calls made and the call's result. -/
def sendCore (o : SendOracle) : List SessEvent × Except String String :=
  match o.attempt1.result with
  | .ok _ => ([.promptCall], .ok (String.join o.attempt1.deltas))
  | .error e => sendCoreAfterError o e

/-! ### Storage effects of one `send_message` call
(`ensure_session`/`create_session` plus the post-prompt persistence of
`send_message_with_attachments`; row semantics from
`crates/aobot-storage/src/lib.rs`). -/

/-- The persisted `gateway_sessions` row for one session key
(the fields `send_message` can change). -/
structure StoredRow where
  messageCount : Int
  isActive : Bool
  piSessionId : Option String
deriving DecidableEq

/-- The state relevant to one session key: the in-memory map entry (tracked
as its `pi_session_id_saved` flag) and the storage row. -/
structure SendState where
  mem : Option Bool
  row : Option StoredRow
deriving DecidableEq

/-- Storage effect of `create_session`: `save_session` upserts a fresh row —
`message_count = 0`, `is_active = true`, and (per the SQL `COALESCE`)
`pi_session_id` kept from any existing row — and inserts the in-memory entry
with `pi_session_id_saved = false`. -/
def createSessionState (s : SendState) : SendState :=
  { mem := some false
    row := some
      { messageCount := 0
        isActive := true
        piSessionId := s.row.bind (·.piSessionId) } }

/-- `save_pi_session_id`: `UPDATE … SET pi_session_id = ?` for the key. -/
def savePiSessionId (r : Option StoredRow) (sid : String) : Option StoredRow :=
  r.map (fun row => { row with piSessionId := some sid })

/-- `update_session_activity`:
`UPDATE … SET message_count = message_count + 1` for the key. -/
def updateActivity (r : Option StoredRow) : Option StoredRow :=
  r.map (fun row => { row with messageCount := row.messageCount + 1 })

/-- `send_message_with_attachments` including its storage effects, assuming
every storage operation succeeds: ensure the session (creating it when the
in-memory entry is absent), run the prompt core, and on success capture the
pi session id on the first prompt and bump the activity counter.  On error
the call returns before touching storage. -/
def sendFull (o : SendOracle) (s : SendState) : SendState × Except String String :=
  let s1 := if s.mem.isNone then createSessionState s else s
  match (sendCore o).2 with
  | .error e => (s1, .error e)
  | .ok text =>
    let s2 :=
      match s1.mem, o.sessionId with
      | some false, some sid =>
        { s1 with mem := some true, row := savePiSessionId s1.row sid }
      | _, _ => s1
    ({ s2 with row := updateActivity s2.row }, .ok text)

/-- The persisted message count of a state (0 when no row exists). -/
def rowCount (s : SendState) : Int :=
  match s.row with
  | some r => r.messageCount
  | none => 0

/-! ### Channel status and the plugin registry
(`ChannelManager::register`/`unregister`,
`crates/aobot-gateway/src/channel.rs` lines 133–156). -/

/-- `aobot_types::ChannelStatus`. -/
inductive ChannelStatus where
  | stopped
  | starting
  | running
  | error (msg : String)
deriving DecidableEq

/-- `HashMap::insert`: replace the binding of `id` or add a new one.  The
registry is modelled as an association list from `channel_id` to the
plugin's current status. -/
def registryInsert (reg : List (String × ChannelStatus)) (id : String)
    (st : ChannelStatus) : List (String × ChannelStatus) :=
  match reg with
  | [] => [(id, st)]
  | (k, v) :: rest =>
    if k = id then (id, st) :: rest else (k, v) :: registryInsert rest id st

/-- `HashMap::remove`: the removed value, if any, and the remaining map. -/
def registryRemove (reg : List (String × ChannelStatus)) (id : String) :
    Option ChannelStatus × List (String × ChannelStatus) :=
  match reg with
  | [] => (none, [])
  | (k, v) :: rest =>
    if k = id then (some v, rest)
    else
      let r := registryRemove rest id
      (r.1, (k, v) :: r.2)

/-- `ChannelManager::register`: a plain map insert.  Returns the new registry
and the list of plugins on which `stop()` was called — `register` makes no
`stop()` call. -/
def registerModel (reg : List (String × ChannelStatus)) (id : String)
    (st : ChannelStatus) : List (String × ChannelStatus) × List String :=
  (registryInsert reg id st, [])

/-- `ChannelManager::unregister`: remove the entry; if one was present and
its status was `Running`, call `stop()` on it.  Returns the new registry, the
`stop()` calls made, and the boolean result. -/
def unregisterModel (reg : List (String × ChannelStatus)) (id : String) :
    List (String × ChannelStatus) × List String × Bool :=
  match registryRemove reg id with
  | (none, reg') => (reg', [], false)
  | (some st, reg') =>
    (reg', if st = ChannelStatus.running then [id] else [], true)

/-! ### The external channel plugin
(`ExternalChannelPlugin`, `crates/aobot-gateway/src/external_channel.rs`).

The observable state is the `status` field of the plugin's own
`ExternalPluginState`, whether a subprocess is attached, the cached channel
type, and the *separate* shared status cell (`status_shared`) created in
`start()` and handed to the stdout reader task. -/

structure ExtState where
  processRunning : Bool
  status : ChannelStatus
  sharedStatus : ChannelStatus
  channelType : String
  command : String
deriving DecidableEq

/-- Outcome of each step of the start sequence: the subprocess spawn, the
`initialize` RPC (whose parsed result is the reported channel type, `none`
when the result does not parse — the parse failure is ignored), and the
`start` RPC. -/
structure StartEnv where
  spawn : Except String Unit
  initRpc : Except String (Option String)
  startRpc : Except String Unit
deriving DecidableEq

/-- `ExternalChannelPlugin::start`: bail when already running; set status
`Starting`; spawn (on failure set status `Error("Failed to spawn: …")` and
return the error); send `initialize` (capturing the returned channel type
when it parses); send `start`; on success set status `Running`.  A failed
`initialize` or `start` RPC propagates with `?` — the status field is not
updated on those paths. -/
def pluginStart (env : StartEnv) (s : ExtState) : ExtState × Except String Unit :=
  if s.processRunning then (s, .error ("Plugin is already running"))
  else
    let s := { s with status := ChannelStatus.starting }
    match env.spawn with
    | .error e =>
      ({ s with status := ChannelStatus.error ("Failed to spawn: " ++ e) },
       .error ("Failed to spawn plugin " ++ s.command ++ ": " ++ e))
    | .ok _ =>
      let s := { s with processRunning := true,
                        sharedStatus := ChannelStatus.starting }
      match env.initRpc with
      | .error e => (s, .error e)
      | .ok parsed =>
        let s :=
          match parsed with
          | some ct => { s with channelType := ct }
          | none => s
        match env.startRpc with
        | .error e => (s, .error e)
        | .ok _ => ({ s with status := ChannelStatus.running }, .ok ())

/-- Notifications dispatched by the stdout reader task. -/
inductive PluginNotification where
  | inboundMessage (m : InboundMsg)
  | statusChange (st : ChannelStatus)
  | log (level msg : String)
  | unknown (method : String)

/-- State effect of the reader task's notification dispatch: a
`status_change` notification writes the new status into the shared cell
created in `start()`; `inbound_message` forwards to the inbound channel and
`log`/unknown notifications only log — none of them touch the plugin's own
state. -/
def handleNotification (s : ExtState) : PluginNotification → ExtState
  | .statusChange st => { s with sharedStatus := st }
  | _ => s

/-- The synchronous `status()` accessor: `try_lock` the state and read its
`status` field, or report `Running` when the lock is contended. -/
def statusAccessor (s : ExtState) (lockContended : Bool) : ChannelStatus :=
  if lockContended then ChannelStatus.running else s.status

/-- Whether an `Except` is `ok`. -/
def isOkE {ε α : Type} : Except ε α → Bool
  | .ok _ => true
  | .error _ => false

/-! ### Concrete instances used to settle the claims -/

/-- An inbound message with empty text, no attachments and no command. -/
def emptyMsg : InboundMsg :=
  { channelType := "telegram", channelId := "tg1", senderId := "42"
    text := "", agent := none, sessionKey := none, metadata := []
    attachments := [] }

/-- A Telegram `/reset` as it reaches the routing loop: the polling loop
normalises the command token to `"reset"` (no mapping to `"new"`). -/
def resetMsg : InboundMsg :=
  { channelType := "telegram", channelId := "tg1", senderId := "42"
    text := "/reset", agent := none, sessionKey := none
    metadata := [("command", JsonVal.str "reset")], attachments := [] }

/-- A `/new` command message. -/
def newMsg : InboundMsg :=
  { channelType := "telegram", channelId := "tg1", senderId := "42"
    text := "/new", agent := none, sessionKey := none
    metadata := [("command", JsonVal.str "new")], attachments := [] }

/-- An oracle for a first prompt that streams a partial delta and then fails
with a context-overflow error; compaction succeeds and the retry streams
`"retry"` and succeeds. -/
def overflowOracle : SendOracle :=
  { attempt1 := { deltas := ["partial "], result := .error "context too long" }
    compactRes := .ok ()
    attempt2 := { deltas := ["retry"], result := .ok () }
    sessionId := none }

/-- An oracle whose first prompt streams `"hi"` and succeeds. -/
def okOracle : SendOracle :=
  { attempt1 := { deltas := ["hi"], result := .ok () }
    compactRes := .ok ()
    attempt2 := { deltas := [], result := .ok () }
    sessionId := some "pi-1" }

/-- A key whose in-memory entry is absent while a soft-deleted storage row
with `message_count = 5` still exists. -/
def staleState : SendState :=
  { mem := none
    row := some { messageCount := 5, isActive := false, piSessionId := none } }

/-- A key whose in-memory entry exists alongside its storage row. -/
def liveState : SendState :=
  { mem := some true
    row := some
      { messageCount := 5, isActive := true, piSessionId := some "pi-1" } }

/-- Initial state of an external plugin that is not running. -/
def extStopped : ExtState :=
  { processRunning := false, status := .stopped, sharedStatus := .stopped
    channelType := "external", command := "/bin/plugin" }

/-- A start environment in which every step succeeds. -/
def envAllOk : StartEnv :=
  { spawn := .ok (), initRpc := .ok (some "slack"), startRpc := .ok () }

/-- A start environment in which the `initialize` RPC fails. -/
def envInitFail : StartEnv :=
  { spawn := .ok (), initRpc := .error "boom", startRpc := .ok () }

/-! ## Lemmas about the chunker embedding -/

theorem utf8Len_pos (c : Char) : 1 ≤ utf8Len c := by
  unfold utf8Len
  repeat' split
  all_goals omega

theorem byteLen_append (a b : List Char) :
    byteLen (a ++ b) = byteLen a + byteLen b := by
  induction a with
  | nil => simp [byteLen]
  | cons c a ih => simp [byteLen, ih, Nat.add_assoc]

theorem byteLen_prefix_le {a b : List Char} (h : a <+: b) :
    byteLen a ≤ byteLen b := by
  obtain ⟨t, rfl⟩ := h
  rw [byteLen_append]
  omega

theorem takeBytes_byteLen :
    ∀ (s : List Char) (n : Nat) (t : List Char),
    takeBytes s n = some t → byteLen t = n := by
  intro s
  induction s with
  | nil =>
    intro n t h
    cases n with
    | zero =>
      simp only [takeBytes, Option.some.injEq] at h
      subst h
      rfl
    | succ n => simp [takeBytes] at h
  | cons c rest ih =>
    intro n t h
    cases n with
    | zero =>
      simp only [takeBytes, Option.some.injEq] at h
      subst h
      rfl
    | succ n =>
      simp only [takeBytes] at h
      split at h
      · rename_i hle
        rcases Option.map_eq_some'.mp h with ⟨t', ht', rfl⟩
        have := ih _ _ ht'
        simp [byteLen, this]
        omega
      · exact absurd h (by simp)

theorem splitAll_ne_nil (s : List Char) : splitAll s ≠ [] := by
  cases s with
  | nil => simp [splitAll]
  | cons c rest =>
    simp only [splitAll]
    split
    · simp
    · split <;> simp

theorem splitAll_append_nl (a b : List Char) :
    splitAll (a ++ '\n' :: b) = splitAll a ++ splitAll b := by
  induction a with
  | nil => simp [splitAll]
  | cons c a ih =>
    by_cases hc : c = '\n'
    · subst hc
      simp [splitAll, ih]
    · rcases h : splitAll a with _ | ⟨l, ls⟩
      · exact absurd h (splitAll_ne_nil a)
      · simp only [List.cons_append, splitAll, hc, if_false, List.append_eq,
          ih, h, List.cons_append]

theorem splitAll_no_nl {a : List Char} (h : '\n' ∉ a) : splitAll a = [a] := by
  induction a with
  | nil => simp [splitAll]
  | cons c a ih =>
    have hc : c ≠ '\n' := fun hc => h (hc ▸ List.mem_cons_self c a)
    have ha : '\n' ∉ a := fun hm => h (List.mem_cons_of_mem c hm)
    simp [splitAll, hc, ih ha]

theorem splitTerm_eq_nil {s : List Char} (h : splitTerm s = []) : s = [] := by
  cases s with
  | nil => rfl
  | cons c rest =>
    simp only [splitTerm] at h
    split at h
    · simp at h
    · split at h <;> simp at h

theorem splitAll_eq_splitTerm (s : List Char) :
    splitAll s = splitTerm s ∨ splitAll s = splitTerm s ++ [[]] := by
  induction s with
  | nil => right; simp [splitAll, splitTerm]
  | cons c rest ih =>
    by_cases hc : c = '\n'
    · subst hc
      rcases ih with h | h
      · left; simp [splitAll, splitTerm, h]
      · right; simp [splitAll, splitTerm, h]
    · rcases hT : splitTerm rest with _ | ⟨l, ls⟩
      · have : rest = [] := splitTerm_eq_nil hT
        subst this
        left
        simp [splitAll, splitTerm, hc]
      · rcases hA : splitAll rest with _ | ⟨l2, ls2⟩
        · exact absurd hA (splitAll_ne_nil rest)
        · rw [hT, hA] at ih
          rcases ih with h | h
          · injection h with h1 h2
            subst h1
            subst h2
            left
            simp [splitAll, splitTerm, hc, hT, hA]
          · rw [List.cons_append] at h
            injection h with h1 h2
            subst h1
            subst h2
            right
            simp [splitAll, splitTerm, hc, hT, hA]

theorem isFence_nil : isFence [] = false := by decide

theorem countP_splitTerm_eq (s : List Char) :
    (splitTerm s).countP isFence = (splitAll s).countP isFence := by
  rcases splitAll_eq_splitTerm s with h | h <;> rw [h]
  simp [List.countP_append, List.countP_cons, isFence_nil]

theorem mem_splitTerm_no_nl :
    ∀ (s : List Char) (l : List Char), l ∈ splitTerm s → '\n' ∉ l := by
  intro s
  induction s with
  | nil => intro l hl; simp [splitTerm] at hl
  | cons c rest ih =>
    intro l hl
    by_cases hc : c = '\n'
    · subst hc
      rw [show splitTerm ('\n' :: rest) = [] :: splitTerm rest by
        simp [splitTerm]] at hl
      rcases List.mem_cons.mp hl with h | h
      · subst h; simp
      · exact ih l h
    · rcases hT : splitTerm rest with _ | ⟨l', ls⟩
      · have hr : rest = [] := splitTerm_eq_nil hT
        subst hr
        rw [show splitTerm [c] = [[c]] by simp [splitTerm, hc]] at hl
        rcases List.mem_singleton.mp hl with rfl
        intro hm
        rcases List.mem_singleton.mp hm with rfl
        exact hc rfl
      · rw [show splitTerm (c :: rest) = (c :: l') :: ls by
          simp [splitTerm, hc, hT]] at hl
        rcases List.mem_cons.mp hl with h | h
        · subst h
          intro hm
          rcases List.mem_cons.mp hm with h2 | h2
          · exact hc h2.symm
          · exact ih l' (by rw [hT]; exact List.mem_cons_self l' ls) h2
        · exact ih l (by rw [hT]; exact List.mem_cons_of_mem l' h)

theorem trimRight_front (s : List Char) : trimRight s <+: s := by
  have h1 : (trimRight s).reverse <:+ s.reverse := by
    unfold trimRight
    rw [List.reverse_reverse]
    exact List.dropWhile_suffix isRustWs
  exact List.reverse_suffix.mp h1

theorem rustTrim_sublist (s : List Char) : (rustTrim s).Sublist s := by
  unfold rustTrim trimLeft
  exact (trimRight_front _).sublist.trans
    ((List.dropWhile_suffix isRustWs).sublist)

theorem mem_rustTrim {c : Char} {s : List Char} (h : c ∈ rustTrim s) : c ∈ s :=
  (rustTrim_sublist s).subset h

theorem trimLeft_head_not_ws {c : Char} {u : List Char}
    (h : trimLeft (c :: u) = c :: u) : isRustWs c = false := by
  by_contra hw
  have hw' : isRustWs c = true := by
    cases hws : isRustWs c
    · exact absurd hws hw
    · rfl
  unfold trimLeft at h
  rw [List.dropWhile_cons_of_pos hw'] at h
  have hlen := congrArg List.length h
  have hle := ((List.dropWhile_suffix isRustWs (l := u)).sublist).length_le
  simp at hlen
  omega

theorem trimLeft_trimRight {s : List Char} (h : trimLeft s = s) :
    trimLeft (trimRight s) = trimRight s := by
  rcases hT : trimRight s with _ | ⟨c, u⟩
  · rfl
  · have hpre : trimRight s <+: s := trimRight_front s
    rw [hT] at hpre
    obtain ⟨t, ht⟩ := hpre
    have hc : isRustWs c = false := by
      rw [← ht] at h
      have : trimLeft (c :: (u ++ t)) = c :: (u ++ t) := by
        simpa using h
      exact trimLeft_head_not_ws this
    unfold trimLeft
    rw [List.dropWhile_cons_of_neg (by simp [hc])]

theorem rustTrim_idem (s : List Char) : rustTrim (rustTrim s) = rustTrim s := by
  unfold rustTrim
  have h1 : trimLeft (trimLeft s) = trimLeft s := List.dropWhile_idempotent _ _
  rw [trimLeft_trimRight h1]
  unfold trimRight
  rw [List.reverse_reverse, List.dropWhile_idempotent]

theorem isFence_rustTrim (l : List Char) : isFence (rustTrim l) = isFence l := by
  unfold isFence
  rw [rustTrim_idem]

theorem rfindGo_bound (pat : List Char) :
    ∀ (s : List Char) (pos : Nat) (best : Option Nat),
    (∀ q, best = some q → q + byteLen pat ≤ pos + byteLen s) →
    ∀ p, rfindGo pat pos s best = some p → p + byteLen pat ≤ pos + byteLen s := by
  intro s
  induction s with
  | nil =>
    intro pos best hbest p hp
    simp only [rfindGo] at hp
    split at hp
    · rename_i hpre
      have : pat <+: ([] : List Char) := List.isPrefixOf_iff_prefix.mp hpre
      have hlen : byteLen pat ≤ byteLen ([] : List Char) := byteLen_prefix_le this
      injection hp with hp
      subst hp
      simpa using hlen
    · exact hbest p hp
  | cons c rest ih =>
    intro pos best hbest p hp
    simp only [rfindGo] at hp
    have hstep : ∀ q,
        (if pat.isPrefixOf (c :: rest) then some pos else best) = some q →
        q + byteLen pat ≤ pos + byteLen (c :: rest) := by
      intro q hq
      split at hq
      · rename_i hpre
        injection hq with hq
        subst hq
        exact Nat.add_le_add_left
          (byteLen_prefix_le (List.isPrefixOf_iff_prefix.mp hpre)) pos
      · exact hbest q hq
    have := ih (pos + utf8Len c) _ (fun q hq => by
      have h2 := hstep q hq
      simp only [byteLen] at h2 ⊢
      omega) p hp
    simp only [byteLen]
    omega

theorem rfindSub_bound {pat s : List Char} {p : Nat}
    (h : rfindSub pat s = some p) : p + byteLen pat ≤ byteLen s := by
  have := rfindGo_bound pat s 0 none (by intro q hq; simp at hq) p h
  simpa using this

theorem findSplitPointSp_le (s : List Char) : findSplitPointSp s ≤ byteLen s := by
  unfold findSplitPointSp
  split
  · rename_i pos h
    split
    · have := rfindSub_bound h
      have h1 : byteLen [' '] = 1 := rfl
      omega
    · exact le_refl _
  · exact le_refl _

theorem findSplitPointNl_le (s : List Char) : findSplitPointNl s ≤ byteLen s := by
  unfold findSplitPointNl
  split
  · rename_i pos h
    split
    · have := rfindSub_bound h
      have h1 : byteLen ['\n'] = 1 := rfl
      omega
    · exact findSplitPointSp_le s
  · exact findSplitPointSp_le s

theorem findSplitPoint_le (s : List Char) : findSplitPoint s ≤ byteLen s := by
  unfold findSplitPoint
  split
  · rename_i pos h
    split
    · have := rfindSub_bound h
      have h1 : byteLen ('\n' :: ['\n']) = 2 := rfl
      omega
    · exact findSplitPointNl_le s
  · exact findSplitPointNl_le s

theorem pass1_chunk_le :
    ∀ (fuel : Nat) (buf : List Char) (maxLen : Nat) (raws : List (List Char)),
    pass1 fuel buf maxLen = .ok raws → ∀ r ∈ raws, byteLen r ≤ maxLen := by
  intro fuel
  induction fuel with
  | zero =>
    intro buf maxLen raws h r hr
    cases buf with
    | nil =>
      simp only [pass1] at h
      injection h with h
      subst h
      simp at hr
    | cons c rest => simp [pass1] at h
  | succ fuel ih =>
    intro buf maxLen raws h r hr
    cases buf with
    | nil =>
      simp only [pass1] at h
      injection h with h
      subst h
      simp at hr
    | cons c rest =>
      simp only [pass1] at h
      split at h
      · rename_i hle
        injection h with h
        subst h
        rcases List.mem_singleton.mp hr with rfl
        exact hle
      · rename_i hgt
        split at h
        · exact absurd h (by simp)
        · rename_i sa hsa
          split at h
          · rename_i chunk rest' hck hdr
            split at h
            · rename_i chunks hrec
              injection h with h
              subst h
              rcases List.mem_cons.mp hr with rfl | hmem
              · have h1 := takeBytes_byteLen _ _ _ hck
                have h2 := takeBytes_byteLen _ _ _ hsa
                have h3 := findSplitPoint_le sa
                omega
              · exact ih _ _ _ hrec r hmem
            · exact absurd h (by simp)
          · exact absurd h (by simp)

theorem fenceScan_cons (b : Bool) (f l : List Char) (ls : List (List Char)) :
    fenceScan b f (l :: ls) =
      fenceScan (fenceStep (b, f) l).1 (fenceStep (b, f) l).2 ls := by
  simp [fenceScan]

theorem fenceStep_pos {l : List Char} (b : Bool) (f : List Char)
    (h : isFence l = true) :
    fenceStep (b, f) l = if b then (false, []) else (true, rustTrim l) := by
  simp [fenceStep, h]

theorem fenceStep_neg {l : List Char} (b : Bool) (f : List Char)
    (h : isFence l = false) : fenceStep (b, f) l = (b, f) := by
  simp [fenceStep, h]

theorem scan_parity (ls : List (List Char)) :
    ∀ (b : Bool) (f : List Char),
    Even ((cond b 1 0) + (cond (fenceScan b f ls).1 1 0) +
      ls.countP isFence) := by
  induction ls with
  | nil =>
    intro b f
    cases b <;> simp [fenceScan]
  | cons l ls ih =>
    intro b f
    rw [fenceScan_cons]
    rcases hf : isFence l with _ | _
    · rw [fenceStep_neg b f hf]
      have h := ih b f
      rw [Nat.even_iff] at h ⊢
      simp only [List.countP_cons, hf, if_false] at h ⊢
      simpa using h
    · rw [fenceStep_pos b f hf]
      cases b
      · simp only [Bool.false_eq_true, if_false]
        have h := ih true (rustTrim l)
        rw [Nat.even_iff] at h ⊢
        simp only [List.countP_cons, hf, if_true, cond] at h ⊢
        omega
      · simp only [if_true]
        have h := ih false []
        rw [Nat.even_iff] at h ⊢
        simp only [List.countP_cons, hf, if_true, cond] at h ⊢
        omega

theorem scan_inv (ls : List (List Char)) :
    ∀ (b : Bool) (f : List Char),
    (∀ l ∈ ls, '\n' ∉ l) →
    (b = true → isFence f = true ∧ '\n' ∉ f) →
    ((fenceScan b f ls).1 = true →
      isFence (fenceScan b f ls).2 = true ∧ '\n' ∉ (fenceScan b f ls).2) := by
  induction ls with
  | nil =>
    intro b f _ hinv
    simpa [fenceScan] using hinv
  | cons l ls ih =>
    intro b f hnl hinv
    rw [fenceScan_cons]
    rcases hf : isFence l with _ | _
    · rw [fenceStep_neg b f hf]
      exact ih b f (fun x hx => hnl x (List.mem_cons_of_mem l hx)) hinv
    · rw [fenceStep_pos b f hf]
      cases b
      · simp only [Bool.false_eq_true, if_false]
        refine ih true (rustTrim l)
          (fun x hx => hnl x (List.mem_cons_of_mem l hx)) ?_
        intro _
        constructor
        · rw [isFence_rustTrim]; exact hf
        · intro hmem
          exact hnl l (List.mem_cons_self l ls) (mem_rustTrim hmem)
      · simp only [if_true]
        exact ih false []
          (fun x hx => hnl x (List.mem_cons_of_mem l hx)) (by simp)

theorem scan_fence_le (ls : List (List Char)) :
    ∀ (b : Bool) (f : List Char) (M : Nat),
    byteLen f ≤ M →
    (∀ l ∈ ls, isFence l = true → byteLen (rustTrim l) ≤ M) →
    byteLen (fenceScan b f ls).2 ≤ M := by
  induction ls with
  | nil =>
    intro b f M hf _
    simpa [fenceScan] using hf
  | cons l ls ih =>
    intro b f M hf hls
    rw [fenceScan_cons]
    rcases hfl : isFence l with _ | _
    · rw [fenceStep_neg b f hfl]
      exact ih b f M hf (fun x hx => hls x (List.mem_cons_of_mem l hx))
    · rw [fenceStep_pos b f hfl]
      cases b
      · simp only [Bool.false_eq_true, if_false]
        exact ih true (rustTrim l) M
          (hls l (List.mem_cons_self l ls) hfl)
          (fun x hx => hls x (List.mem_cons_of_mem l hx))
      · simp only [if_true]
        exact ih false [] M (by simp [byteLen])
          (fun x hx => hls x (List.mem_cons_of_mem l hx))

theorem fence3_facts :
    isFence fence3 = true ∧ ('\n' : Char) ∉ fence3 := by decide

theorem append_nl_cons (f x : List Char) :
    (f ++ ['\n']) ++ x = f ++ '\n' :: x := by simp

/-- Decomposition of a chunk's fence-line count via `splitAll`. -/
theorem chunk_fence_count (b b' : Bool) (f raw : List Char)
    (hb : b = true → isFence f = true ∧ '\n' ∉ f) :
    (splitTerm ((if b then f ++ ['\n'] else []) ++ raw ++
      (if b' then '\n' :: fence3 else []))).countP isFence =
    (cond b 1 0) + (splitTerm raw).countP isFence + (cond b' 1 0) := by
  rw [countP_splitTerm_eq]
  cases b
  · cases b'
    · simp only [Bool.false_eq_true, if_false, List.nil_append,
        List.append_nil, cond]
      rw [← countP_splitTerm_eq]
      omega
    · simp only [Bool.false_eq_true, if_false, if_true, List.nil_append, cond]
      rw [splitAll_append_nl, List.countP_append]
      rw [splitAll_no_nl fence3_facts.2]
      simp only [List.countP_cons, List.countP_nil, fence3_facts.1, if_true]
      rw [← countP_splitTerm_eq]
      omega
  · obtain ⟨hff, hfn⟩ := hb rfl
    cases b'
    · simp only [if_true, Bool.false_eq_true, if_false, List.append_nil, cond]
      rw [append_nl_cons, splitAll_append_nl,
        List.countP_append, splitAll_no_nl hfn]
      simp only [List.countP_cons, List.countP_nil, hff, if_true]
      rw [← countP_splitTerm_eq]
      omega
    · simp only [if_true, cond]
      rw [append_nl_cons, splitAll_append_nl, splitAll_append_nl,
        List.countP_append, List.countP_append, splitAll_no_nl hfn,
        splitAll_no_nl fence3_facts.2]
      simp only [List.countP_cons, List.countP_nil, hff, fence3_facts.1,
        if_true]
      rw [← countP_splitTerm_eq]
      try omega

/-- Every chunk produced by pass 2 contains an even number of fence lines,
for any incoming state satisfying the fence invariant. -/
theorem pass2_even :
    ∀ (raws : List (List Char)) (b : Bool) (f : List Char),
    (b = true → isFence f = true ∧ '\n' ∉ f) →
    ∀ c ∈ pass2Go b f raws, Even ((splitTerm c).countP isFence) := by
  intro raws
  induction raws with
  | nil => intro b f _ c hc; simp [pass2Go] at hc
  | cons raw rest ih =>
    intro b f hb c hc
    simp only [pass2Go] at hc
    rcases List.mem_cons.mp hc with rfl | hmem
    · rw [chunk_fence_count b _ f raw hb]
      have hpar := scan_parity (splitTerm raw) b f
      rw [Nat.even_iff] at hpar ⊢
      omega
    · exact ih _ _ (scan_inv (splitTerm raw) b f
        (fun l hl => mem_splitTerm_no_nl raw l hl) hb) c hmem

theorem foldr_fence_le (ls : List (List Char)) :
    ∀ l ∈ ls, isFence l = true →
    byteLen (rustTrim l) ≤
      ls.foldr
        (fun x acc => if isFence x then max (byteLen (rustTrim x)) acc
          else acc) 0 := by
  induction ls with
  | nil => intro l hl; simp at hl
  | cons x xs ih =>
    intro l hl hf
    rcases List.mem_cons.mp hl with rfl | hmem
    · simp only [List.foldr_cons, hf, if_true]
      exact Nat.le_max_left _ _
    · have h := ih l hmem hf
      simp only [List.foldr_cons]
      split
      · exact h.trans (Nat.le_max_right _ _)
      · exact h

theorem rawFenceMax_le {raw l : List Char} (hl : l ∈ splitTerm raw)
    (hf : isFence l = true) : byteLen (rustTrim l) ≤ rawFenceMax raw :=
  foldr_fence_le (splitTerm raw) l hl hf

theorem maxFenceLen_le {raws : List (List Char)} {r : List Char}
    (hr : r ∈ raws) : rawFenceMax r ≤ maxFenceLen raws := by
  unfold maxFenceLen
  induction raws with
  | nil => simp at hr
  | cons x xs ih =>
    rcases List.mem_cons.mp hr with rfl | hmem
    · simp only [List.foldr_cons]
      exact Nat.le_max_left _ _
    · have h := ih hmem
      simp only [List.foldr_cons]
      exact h.trans (Nat.le_max_right _ _)

/-- Byte length of one pass-2 chunk, bounded by the raw chunk's length plus
the reopening fence plus one newline plus the closing fence. -/
theorem pass2_len :
    ∀ (raws : List (List Char)) (b : Bool) (f : List Char) (L M : Nat),
    (∀ r ∈ raws, byteLen r ≤ L) →
    byteLen f ≤ M →
    (∀ r ∈ raws, rawFenceMax r ≤ M) →
    ∀ c ∈ pass2Go b f raws, byteLen c ≤ L + M + 5 := by
  intro raws
  induction raws with
  | nil => intro b f L M _ _ _ c hc; simp [pass2Go] at hc
  | cons raw rest ih =>
    intro b f L M hL hM hF c hc
    simp only [pass2Go] at hc
    rcases List.mem_cons.mp hc with rfl | hmem
    · rw [byteLen_append, byteLen_append]
      have h1 : byteLen (if b then f ++ ['\n'] else []) ≤ M + 1 := by
        cases b
        · simp [byteLen]
        · simp only [if_true]
          rw [byteLen_append]
          have : byteLen ['\n'] = 1 := rfl
          omega
      have h2 : byteLen raw ≤ L := hL raw (List.mem_cons_self raw rest)
      have h3 : byteLen (if (fenceScan b f (splitTerm raw)).1
          then '\n' :: fence3 else []) ≤ 4 := by
        split
        · have : byteLen ('\n' :: fence3) = 4 := rfl
          omega
        · simp [byteLen]
      omega
    · refine ih _ _ L M
        (fun r hr => hL r (List.mem_cons_of_mem raw hr)) ?_
        (fun r hr => hF r (List.mem_cons_of_mem raw hr)) c hmem
      refine scan_fence_le (splitTerm raw) b f M hM ?_
      intro l hl hfl
      exact (rawFenceMax_le hl hfl).trans
        (hF raw (List.mem_cons_self raw rest))

/-! ## Claim C2 -/

/-- Claim C2 as stated is false: chunks may contain an odd number of ```
occurrences.  Two concrete inputs: `"a ``` b\nc ``` d"` with `max_len = 8`
splits into two chunks each holding exactly one ``` token (mid-line ```
tokens do not toggle the fence scanner), and the short input `"```\nx"` is
returned verbatim (the early return skips pass 2), as a single chunk with
one ``` token, which is also a single unclosed fence line. -/
theorem C2_counterexample :
    splitMessage ("a ``` b\nc ``` d".toList) 8 =
      Except.ok ["a ``` b\n".toList, "c ``` d".toList] ∧
    countOccur fence3 ("a ``` b\n".toList) = 1 ∧
    splitMessage ("```\nx".toList) 100 = Except.ok ["```\nx".toList] ∧
    countOccur fence3 ("```\nx".toList) = 1 ∧
    (splitTerm ("```\nx".toList)).countP isFence = 1 :=
  ⟨rfl, by decide, rfl, by decide, by decide⟩

/-- Claim C2, amended: when the input is longer than `max_len` (so the
two-pass algorithm actually runs and pass 2 repairs fences), every chunk of
`split_message` contains an even number of fence *lines* — lines whose
trimmed form starts with ``` (mid-line ``` occurrences are not fences, and
an input no longer than `max_len` is returned verbatim even if it contains
an odd number of fences). -/
theorem C2_even_fence_lines (text : List Char) (maxLen : Nat)
    (chunks : List (List Char)) (hlen : maxLen < byteLen text)
    (h : splitMessage text maxLen = .ok chunks) :
    ∀ c ∈ chunks, Even ((splitTerm c).countP isFence) := by
  unfold splitMessage at h
  rw [if_neg (by omega)] at h
  rcases hp : pass1 (byteLen text) text maxLen with e | raws
  · rw [hp] at h; exact absurd h (by simp [Except.map])
  · rw [hp] at h
    simp only [Except.map] at h
    injection h with h
    subst h
    exact pass2_even raws false [] (by simp)

/-- Witness for `C2_even_fence_lines` at `text = "a\nb"`, `max_len = 1`. -/
theorem C2_witness :
    1 < byteLen ("a\nb".toList) ∧
    splitMessage ("a\nb".toList) 1 = Except.ok ["a".toList, "b".toList] ∧
    Even ((splitTerm ("a".toList)).countP isFence) :=
  ⟨by decide, rfl,
    C2_even_fence_lines ("a\nb".toList) 1 ["a".toList, "b".toList]
      (by decide) rfl ("a".toList) (by simp)⟩

/-! ## Claim C3 -/

/-- Claim C3 fails on the code: `split_message` slices `&buf[..max_len]` at
a byte position that may fall inside a multi-byte UTF-8 character, which
panics in Rust.  Concretely, for the three-character input `"ééé"` (six
UTF-8 bytes) and `max_len = 3`, byte 3 is in the middle of the second `é`:
the embedded model reports exactly that panic.  (The empty input is also a
counterexample to the no-empty-chunk part: `split_message("", n)` returns
one empty chunk.) -/
theorem C3_panic :
    splitMessage ("ééé".toList) 3 = Except.error SplitErr.panic ∧
    byteLen ("ééé".toList) = 6 ∧
    splitMessage ("".toList) 5 = Except.ok [[]] :=
  ⟨rfl, by decide, rfl⟩

/-! ## Claim C4 -/

/-- Claim C4 as stated is false: a chunk may need both a reopening fence
(longest fence line plus one newline) and a synthesized closing fence
(four more bytes).  With `max_len = 10` and a code block whose body has a
10-byte line, the middle chunk is `"```c\n" ++ "A"*10 ++ "\n```"`, 19 bytes —
more than `max_len` plus the longest fence line (4 bytes, `"```c"`) plus
one newline. -/
theorem C4_counterexample :
    splitMessage ("```c\nAAAAAAAAAA\nB\n```".toList) 10 =
      Except.ok ["```c\n\n```".toList, "```c\nAAAAAAAAAA\n```".toList,
        "```c\nB\n```".toList] ∧
    byteLen ("```c\nAAAAAAAAAA\n```".toList) = 19 ∧
    rawFenceMax ("```c\nAAAAAAAAAA\nB\n```".toList) = 4 ∧
    ¬ (19 : Nat) ≤ 10 + (4 + 1) :=
  ⟨rfl, by decide, by decide, by decide⟩

/-- Claim C4, amended: every chunk of `split_message(text, max_len)` is at
most `max_len` plus a fence-repair overhead of the longest trimmed fence
line among the pass-1 chunks, plus one newline for it, plus four bytes for a
synthesized closing fence (`"\n```"`) — the bound `overheadBound`. -/
theorem C4_chunk_len (text : List Char) (maxLen : Nat)
    (chunks : List (List Char)) (h : splitMessage text maxLen = .ok chunks) :
    ∀ c ∈ chunks, byteLen c ≤ maxLen + overheadBound text maxLen := by
  unfold splitMessage at h
  unfold overheadBound
  by_cases hle : byteLen text ≤ maxLen
  · rw [if_pos hle] at h
    rw [if_pos hle]
    injection h with h
    subst h
    intro c hc
    rcases List.mem_singleton.mp hc with rfl
    omega
  · rw [if_neg hle] at h
    rcases hp : pass1 (byteLen text) text maxLen with e | raws
    · rw [hp] at h; exact absurd h (by simp [Except.map])
    · rw [hp] at h
      simp only [Except.map] at h
      injection h with h
      subst h
      intro c hc
      have hov : (if byteLen text ≤ maxLen then 0
          else match (Except.ok raws : Except SplitErr (List (List Char))) with
            | .ok raws => maxFenceLen raws + 5
            | .error _ => 0) = maxFenceLen raws + 5 := by
        rw [if_neg hle]
      rw [hov]
      have := pass2_len raws false [] maxLen (maxFenceLen raws)
        (fun r hr => pass1_chunk_le _ _ _ _ hp r hr)
        (by simp [byteLen])
        (fun r hr => maxFenceLen_le hr) c hc
      omega

/-- Witness for `C4_chunk_len` at the `C4_counterexample` input: the
19-byte middle chunk satisfies the corrected bound `10 + (4 + 5)`. -/
theorem C4_witness :
    splitMessage ("```c\nAAAAAAAAAA\nB\n```".toList) 10 =
      Except.ok ["```c\n\n```".toList, "```c\nAAAAAAAAAA\n```".toList,
        "```c\nB\n```".toList] ∧
    byteLen ("```c\nAAAAAAAAAA\n```".toList) ≤
      10 + overheadBound ("```c\nAAAAAAAAAA\nB\n```".toList) 10 :=
  ⟨rfl,
    C4_chunk_len ("```c\nAAAAAAAAAA\nB\n```".toList) 10
      ["```c\n\n```".toList, "```c\nAAAAAAAAAA\n```".toList,
        "```c\nB\n```".toList] rfl
      ("```c\nAAAAAAAAAA\n```".toList) (by simp)⟩

/-! ## Lemmas about the routing loop -/

/-- Reduction of `routeMessage` for a message carrying a command. -/
theorem routeMessage_cmd (chan : Option Bool) (m : InboundMsg) (cmd : String)
    (h : metaCommand m = some cmd) :
    routeMessage chan m =
      (if commandReply cmd ≠ "" then
        (if cmd = "new" then [RouteAction.deleteSession (deriveSessionKey m)]
         else []) ++
          [RouteAction.sendReply m.channelId m.senderId (commandReply cmd)]
      else
        (if cmd = "new" then [RouteAction.deleteSession (deriveSessionKey m)]
         else []) ++
          routeDispatch (chan.getD false) (deriveSessionKey m) m) := by
  unfold routeMessage
  rw [h]

/-- Reduction of `routeMessage` for a message with no command. -/
theorem routeMessage_none (chan : Option Bool) (m : InboundMsg)
    (h : metaCommand m = none) :
    routeMessage chan m =
      routeDispatch (chan.getD false) (deriveSessionKey m) m := by
  unfold routeMessage
  rw [h]

theorem routeDispatch_prompt_count (b : Bool) (key : String) (m : InboundMsg) :
    (routeDispatch b key m).countP RouteAction.isPrompt = 1 := by
  cases b <;> simp [routeDispatch, List.countP_cons, RouteAction.isPrompt]

theorem commandReply_other {cmd : String} (h1 : cmd ≠ "new")
    (h2 : cmd ≠ "help") (h3 : cmd ≠ "start") : commandReply cmd = "" := by
  unfold commandReply
  rw [if_neg h1, if_neg (by simp [h2, h3])]

/-! ## Claim C5 -/

/-- Claim C5 as stated is false: the routing loop has no empty-message
guard.  The concrete `emptyMsg` — empty text, no attachments, no command —
is dispatched to the blocking session prompt. -/
theorem C5_counterexample :
    emptyMsg.text = "" ∧ emptyMsg.attachments = [] ∧
    routeMessage (some false) emptyMsg =
      [RouteAction.promptBlocking "telegram:tg1:42" ""] :=
  ⟨rfl, rfl, rfl⟩

/-- Claim C5, amended: the routing loop issues exactly one downstream
session prompt for every message it does not intercept as a command — in
particular also for messages with empty text and no attachments.  (Empty
messages are filtered by the channel adapters before they are emitted, not
by the routing loop.) -/
theorem C5_prompt_always (chan : Option Bool) (m : InboundMsg)
    (h : commandReply ((metaCommand m).getD "") = "") :
    (routeMessage chan m).countP RouteAction.isPrompt = 1 := by
  rcases hm : metaCommand m with _ | cmd
  · rw [routeMessage_none chan m hm]
    exact routeDispatch_prompt_count _ _ _
  · rw [hm] at h
    simp only [Option.getD] at h
    rw [routeMessage_cmd chan m cmd hm, if_neg (by simp [h])]
    have hnew : cmd ≠ "new" := by
      intro hc
      rw [hc] at h
      exact absurd h (by decide)
    rw [if_neg hnew]
    simp only [List.nil_append]
    exact routeDispatch_prompt_count _ _ _

/-- Witness for `C5_prompt_always` at `emptyMsg`. -/
theorem C5_witness :
    commandReply ((metaCommand emptyMsg).getD "") = "" ∧
    (routeMessage (some false) emptyMsg).countP RouteAction.isPrompt = 1 :=
  ⟨by decide, C5_prompt_always (some false) emptyMsg (by decide)⟩

/-! ## Claim C6 -/

/-- Claim C6 as stated is false for `reset`: the routing loop intercepts
only `new` (and `help`/`start`); a metadata command `"reset"` — which the
Telegram adapter produces unmapped from `/reset` — falls through to agent
dispatch without any `delete_session` call. -/
theorem C6_counterexample :
    telegramCommandToken ("/reset".toList) = "reset".toList ∧
    metaCommand resetMsg = some "reset" ∧
    routeMessage (some false) resetMsg =
      [RouteAction.promptBlocking "telegram:tg1:42" "/reset"] :=
  ⟨by decide, rfl, rfl⟩

/-- Claim C6, amended: for a metadata command `"new"` the loop calls
`delete_session` on the derived key and then sends the fixed
new-conversation reply, with no prompt; for `"help"`/`"start"` it sends the
fixed help reply, with no prompt; any other command — including `"reset"` —
falls through to agent dispatch (one prompt, no `delete_session`).  The
Discord adapter maps `!reset` to the command `"new"` before it reaches the
loop; the Telegram adapter forwards `reset` unmapped. -/
theorem C6_command_interception (chan : Option Bool) (m : InboundMsg)
    (cmd : String) (h : metaCommand m = some cmd) :
    (cmd = "new" →
      routeMessage chan m =
        [RouteAction.deleteSession (deriveSessionKey m),
         RouteAction.sendReply m.channelId m.senderId newReplyText]) ∧
    (cmd = "help" ∨ cmd = "start" →
      routeMessage chan m =
        [RouteAction.sendReply m.channelId m.senderId helpReplyText]) ∧
    (cmd ≠ "new" → cmd ≠ "help" → cmd ≠ "start" →
      (routeMessage chan m).countP RouteAction.isPrompt = 1 ∧
      RouteAction.deleteSession (deriveSessionKey m) ∉ routeMessage chan m) ∧
    discordParseCommand ("!reset".toList) = (some "new", "!reset".toList) := by
  refine ⟨?_, ?_, ?_, by decide⟩
  · rintro rfl
    rw [routeMessage_cmd chan m "new" h]
    have hr : commandReply "new" = newReplyText := rfl
    rw [hr, if_pos (by decide), if_pos rfl]
    rfl
  · intro hc
    have hr : commandReply cmd = helpReplyText := by
      rcases hc with rfl | rfl <;> rfl
    have hnew : ¬ cmd = "new" := by
      rcases hc with rfl | rfl <;> decide
    rw [routeMessage_cmd chan m cmd h, hr, if_pos (by decide), if_neg hnew]
    rfl
  · intro h1 h2 h3
    have hr : commandReply cmd = "" := commandReply_other h1 h2 h3
    rw [routeMessage_cmd chan m cmd h, hr, if_neg (by simp), if_neg h1]
    simp only [List.nil_append]
    constructor
    · exact routeDispatch_prompt_count _ _ _
    · cases hb : (chan.getD false) <;> simp [routeDispatch]

/-- Witness for `C6_command_interception` at the `/new` message. -/
theorem C6_witness :
    metaCommand newMsg = some "new" ∧
    routeMessage (some false) newMsg =
      [RouteAction.deleteSession "telegram:tg1:42",
       RouteAction.sendReply "tg1" "42" newReplyText] :=
  ⟨rfl, (C6_command_interception (some false) newMsg "new" rfl).1 rfl⟩

/-! ## Claim C7 -/

theorem registryInsert_lookup (reg : List (String × ChannelStatus))
    (id : String) (st : ChannelStatus) :
    (registryInsert reg id st).lookup id = some st := by
  induction reg with
  | nil => simp [registryInsert, List.lookup]
  | cons kv rest ih =>
    obtain ⟨k, v⟩ := kv
    by_cases hk : k = id
    · simp [registryInsert, hk, List.lookup]
    · simp only [registryInsert, hk, if_false]
      rw [List.lookup_cons]
      have hbe : (id == k) = false := by
        rw [beq_eq_false_iff_ne]
        exact fun hc => hk hc.symm
      simp only [hbe]
      exact ih

/-- Claim C7 as stated is false: `register` evicts a previous plugin with
the same id without stopping it, even when it is `Running`. -/
theorem C7_counterexample :
    ([("a", ChannelStatus.running)].lookup "a") = some ChannelStatus.running ∧
    registerModel [("a", ChannelStatus.running)] "a" ChannelStatus.stopped =
      ([("a", ChannelStatus.stopped)], []) :=
  ⟨rfl, rfl⟩

/-- Claim C7, amended: `register` is a plain replacing insert — the new
plugin replaces any previous entry with the same `channel_id`, and no
`stop()` call is made on the evicted plugin regardless of its status.
Stop-on-eviction happens only in `unregister`, which stops the removed
plugin exactly when its status is `Running`. -/
theorem C7_register_replaces_without_stop :
    (∀ (reg : List (String × ChannelStatus)) (id : String)
       (st : ChannelStatus),
      (registerModel reg id st).2 = [] ∧
      ((registerModel reg id st).1).lookup id = some st) ∧
    (∀ (reg : List (String × ChannelStatus)) (id : String),
      (unregisterModel reg id).2.1 =
        match (registryRemove reg id).1 with
        | some ChannelStatus.running => [id]
        | _ => []) := by
  constructor
  · intro reg id st
    exact ⟨rfl, registryInsert_lookup reg id st⟩
  · intro reg id
    unfold unregisterModel
    rcases hrr : registryRemove reg id with ⟨o, reg'⟩
    rcases o with _ | st
    · rfl
    · cases st <;> rfl

/-! ## Claim C1 -/

/-- Claim C1 as stated is false on the returned text: the response collector
is subscribed once and never reset, so deltas streamed by the failed first
attempt are prefixed to the retry's result.  With `overflowOracle` — first
attempt streams `"partial "` then fails with `"context too long"`, the retry
streams `"retry"` and succeeds — the call returns `"partial retry"`, not the
retry's own result `"retry"`. -/
theorem C1_counterexample :
    (sendCore overflowOracle).2 = Except.ok "partial retry" ∧
    String.join overflowOracle.attempt2.deltas = "retry" ∧
    ("partial retry" : String) ≠ "retry" :=
  ⟨rfl, rfl, by decide⟩

/-- Claim C1, amended: when the first prompt fails with an error matching
the overflow substrings, the session manager calls `compact` exactly once
and retries the prompt exactly once (no retry when the compaction fails);
if compaction fails, the original prompt error is surfaced (with a
`"Prompt error: "` prefix); if the retry fails, its error is surfaced with a
`"Prompt error after compaction: "` prefix; and if the retry succeeds, the
returned text is the concatenation of the deltas collected during *both*
attempts — it equals the retry's own result only when the failed first
attempt streamed nothing. -/
theorem C1_compact_retry (o : SendOracle) (e1 : String)
    (h1 : o.attempt1.result = .error e1) (h2 : overflowMatch e1 = true) :
    ((sendCore o).1 =
      if isOkE o.compactRes then
        [SessEvent.promptCall, SessEvent.compactCall, SessEvent.promptCall]
      else [SessEvent.promptCall, SessEvent.compactCall]) ∧
    (o.compactRes = .ok () → o.attempt2.result = .ok () →
      (sendCore o).2 =
        .ok (String.join o.attempt1.deltas ++ String.join o.attempt2.deltas)) ∧
    (∀ ce, o.compactRes = .error ce →
      (sendCore o).2 = .error ("Prompt error: " ++ e1)) ∧
    (∀ e2, o.compactRes = .ok () → o.attempt2.result = .error e2 →
      (sendCore o).2 = .error ("Prompt error after compaction: " ++ e2)) := by
  have hs : sendCore o = sendCoreAfterError o e1 := by
    unfold sendCore
    rw [h1]
  rw [hs]
  unfold sendCoreAfterError
  rw [if_pos h2]
  rcases hc : o.compactRes with ce | u
  · refine ⟨by simp [isOkE], ?_, ?_, ?_⟩
    · intro hok; exact absurd hok (by simp)
    · intro ce' hce
      injection hce with hce
      rfl
    · intro e2 hok; exact absurd hok (by simp)
  · rcases ha2 : o.attempt2.result with e2 | u2
    · refine ⟨by simp [isOkE], ?_, ?_, ?_⟩
      · intro _ hok; exact absurd hok (by simp)
      · intro ce hce; exact absurd hce (by simp)
      · intro e2' _ he2
        injection he2 with he2
        rw [he2]
    · refine ⟨by simp [isOkE], ?_, ?_, ?_⟩
      · intro _ _; rfl
      · intro ce hce; exact absurd hce (by simp)
      · intro e2 _ he2; exact absurd he2 (by simp)

/-- Witness for `C1_compact_retry` at `overflowOracle`. -/
theorem C1_witness :
    overflowOracle.attempt1.result = Except.error "context too long" ∧
    overflowMatch "context too long" = true ∧
    (sendCore overflowOracle).1 =
      [SessEvent.promptCall, SessEvent.compactCall, SessEvent.promptCall] ∧
    (sendCore overflowOracle).2 = Except.ok "partial retry" := by
  have h := C1_compact_retry overflowOracle "context too long" rfl (by decide)
  refine ⟨rfl, by decide, ?_, ?_⟩
  · have h1 := h.1
    simpa [isOkE, overflowOracle] using h1
  · rw [h.2.1 rfl rfl]
    rfl

/-! ## Claim C8 -/

/-- Claim C8 as stated is false when the call has to (re)create the session:
`create_session` upserts the row with `message_count = 0` before the prompt,
so a successful call on `staleState` — no in-memory entry, a soft-deleted
row with `message_count = 5` — ends with a persisted count of 1, not 6. -/
theorem C8_counterexample :
    rowCount staleState = 5 ∧
    (sendFull okOracle staleState).2 = Except.ok "hi" ∧
    rowCount (sendFull okOracle staleState).1 = 1 ∧
    ((1 : Int) ≠ 5 + 1) :=
  ⟨rfl, rfl, rfl, by decide⟩

/-- Claim C8, amended: for a `send_message` call on a session whose
in-memory entry already exists (and assuming storage operations succeed),
the persisted `message_count` increases by exactly 1 on success and the
state is untouched on error; when the call creates the session, the row is
first reset to `message_count = 0`, so a successful call ends at 1
regardless of the previous persisted count. -/
theorem C8_message_count (o : SendOracle) (s : SendState) (b : Bool)
    (r : StoredRow) (hm : s.mem = some b) (hr : s.row = some r) :
    (∀ text, (sendFull o s).2 = .ok text →
      rowCount (sendFull o s).1 = r.messageCount + 1) ∧
    (∀ e, (sendFull o s).2 = .error e → (sendFull o s).1 = s) := by
  unfold sendFull
  rw [hm]
  simp only [Option.isNone_some, Bool.false_eq_true, if_false]
  rcases hsc : (sendCore o).2 with e | text
  · exact ⟨fun t ht => by simp at ht, fun e' he => rfl⟩
  · refine ⟨fun t ht => ?_, fun e' he => by simp at he⟩
    cases b
    · rcases hsid : o.sessionId with _ | sid
      · simp [rowCount, updateActivity, hr, hm]
      · simp [rowCount, updateActivity, savePiSessionId, hr, hm]
    · simp [rowCount, updateActivity, hr, hm]

/-- Witness for `C8_message_count` at `liveState` with a successful
prompt. -/
theorem C8_witness :
    liveState.mem = some true ∧
    liveState.row =
      some { messageCount := 5, isActive := true, piSessionId := some "pi-1" } ∧
    (sendFull okOracle liveState).2 = Except.ok "hi" ∧
    rowCount (sendFull okOracle liveState).1 = 5 + 1 :=
  ⟨rfl, rfl, rfl,
    (C8_message_count okOracle liveState true
      { messageCount := 5, isActive := true, piSessionId := some "pi-1" }
      rfl rfl).1 "hi" rfl⟩

/-! ## Claim C9 -/

/-- Claim C9 as stated is false: only a spawn failure sets the status to
`Error`.  When the `initialize` RPC fails the call returns the error but the
status field is left at `Starting`. -/
theorem C9_counterexample :
    (pluginStart envInitFail extStopped).1.status = ChannelStatus.starting ∧
    (pluginStart envInitFail extStopped).2 = Except.error "boom" :=
  ⟨rfl, rfl⟩

/-- Claim C9, amended: on a spawn failure the status becomes
`Error("Failed to spawn: …")` and the call returns an error; on a failed
`initialize` or `start` RPC the call returns the error but the status stays
`Starting`; on full success the status becomes `Running`. -/
theorem C9_start_status (env : StartEnv) (s : ExtState)
    (h : s.processRunning = false) :
    (∀ e, env.spawn = .error e →
      (pluginStart env s).1.status =
        ChannelStatus.error ("Failed to spawn: " ++ e) ∧
      (pluginStart env s).2 =
        .error ("Failed to spawn plugin " ++ s.command ++ ": " ++ e)) ∧
    (∀ e, env.spawn = .ok () → env.initRpc = .error e →
      (pluginStart env s).1.status = ChannelStatus.starting ∧
      (pluginStart env s).2 = .error e) ∧
    (∀ r e, env.spawn = .ok () → env.initRpc = .ok r →
      env.startRpc = .error e →
      (pluginStart env s).1.status = ChannelStatus.starting ∧
      (pluginStart env s).2 = .error e) ∧
    (∀ r, env.spawn = .ok () → env.initRpc = .ok r → env.startRpc = .ok () →
      (pluginStart env s).1.status = ChannelStatus.running ∧
      (pluginStart env s).2 = .ok ()) := by
  refine ⟨?_, ?_, ?_, ?_⟩
  · intro e hsp
    simp [pluginStart, h, hsp]
  · intro e hsp hinit
    simp [pluginStart, h, hsp, hinit]
  · intro r e hsp hinit hstart
    cases r <;> simp [pluginStart, h, hsp, hinit, hstart]
  · intro r hsp hinit hstart
    cases r <;> simp [pluginStart, h, hsp, hinit, hstart]

/-- Witness for `C9_start_status`: a fully successful start on a stopped
plugin ends `Running` with an `ok` result. -/
theorem C9_witness :
    extStopped.processRunning = false ∧
    envAllOk.spawn = Except.ok () ∧
    (pluginStart envAllOk extStopped).1.status = ChannelStatus.running ∧
    (pluginStart envAllOk extStopped).2 = Except.ok () := by
  have h := (C9_start_status envAllOk extStopped rfl).2.2.2
    (some "slack") rfl rfl rfl
  exact ⟨rfl, rfl, h.1, h.2⟩

/-! ## Claim C10 -/

/-- Claim C10, confirmed: a `status_change` notification writes only the
shared status cell created in `start()`; the synchronous `status()` accessor
reads the state's own `status` field (or reports `Running` under lock
contention) and is unaffected, for every state, every announced status and
every lock-contention outcome. -/
theorem C10_status_change_frame (s : ExtState) (st : ChannelStatus)
    (locked : Bool) :
    statusAccessor (handleNotification s (PluginNotification.statusChange st))
      locked = statusAccessor s locked := by
  cases locked <;> simp [statusAccessor, handleNotification]

end Aobot
